import Mathlib

/-!
# kata-proxy: a verification development for `proxy.go`

Shallow embedding of the connection-lifecycle code of the proxy
(`handleSignal`, `unixAddr`, the accept loop of `serve`, `proxyConn`
and the configuration check of `main`) together with the properties
proved about it.

Conventions of the embedding.

* A Go `error` is `Option GoError`; `none` is the `nil` error.
* A Go interface value that can be `nil` (`net.Conn`, `net.Listener`,
  `os.Signal`) is an `Option`; `none` is the `nil` interface.
* A Go pointer to a variable (`*net.Conn`, `*net.Listener`) is an
  `Option` of the variable's current content; `none` is the `nil`
  pointer, so `some none` is a valid pointer to a variable holding `nil`.
* Calls into the operating system or into libraries (`Close`, `Accept`,
  `session.Open`, `url.Parse`, `Signal.String`, the `%q` verb) are
  answered by the environment: their results are inputs of the model and
  every call that has an effect is recorded in a trace.
-/

namespace KataProxy

/-! ## Common data -/

/-- Go `error` value (non-nil); only its message is observable. -/
structure GoError where
  msg : String
deriving DecidableEq, Repr

/-- Go `syscall.Signal`, a signal number. -/
abbrev Signal := Nat

/-- Constant `termSignal = syscall.SIGTERM` (signal number 15). -/
def termSignal : Signal := 15

/-- Value of an interface type with a `Close() error` method (`net.Conn`,
`net.Listener`): an identity and the answer its `Close` gives. -/
structure Closer where
  id : Nat
  closeErr : Option GoError
deriving DecidableEq, Repr

/-- How a call ends: it returns an error value, it panics (method call on
a `nil` interface), or it never returns (receive on a channel on which
nothing is ever sent). -/
inductive Outcome where
  | ret (err : Option GoError)
  | panicked
  | blocked
deriving DecidableEq, Repr

/-- One `Close` call of `handleSignal`, by receiver. -/
inductive CloseCall where
  | listener (l : Closer)
  | transport (c : Closer)
deriving DecidableEq, Repr

/-- Library functions used to build the error message of `handleSignal`:
`syscall.Signal.String` and the rendering of the `%q` verb. -/
structure FmtLib where
  sigString : Signal → String
  quote : String → String

/-! ## `handleSignal` -/

/-- Everything observable after a call of `handleSignal`: how it ended, the
content of the two variables the pointer arguments refer to, and the `Close`
calls made, in order. -/
structure SigResult where
  out : Outcome
  vmConn : Option (Option Closer)
  proxyListener : Option (Option Closer)
  closes : List CloseCall
deriving DecidableEq, Repr

/-- Second half of `handleSignal` (lines 224-232): close the connection with
the VM, given the state of the listener variable and the calls made so far. -/
def closeVMConn (vmConn proxyListener : Option (Option Closer))
    (closes : List CloseCall) : SigResult :=
  match vmConn with
  | none => ⟨.ret none, vmConn, proxyListener, closes⟩
  | some none => ⟨.panicked, vmConn, proxyListener, closes⟩
  | some (some c) =>
    match c.closeErr with
    | some err => ⟨.ret (some err), vmConn, proxyListener, closes ++ [.transport c]⟩
    | none => ⟨.ret none, some none, proxyListener, closes ++ [.transport c]⟩

/-- Function `handleSignal(sigCh, vmConn, proxyListener)`.  The channel is
`none` when nil and otherwise the queue of values it will deliver. -/
def handleSignal (lib : FmtLib) (sigCh : Option (List (Option Signal)))
    (vmConn proxyListener : Option (Option Closer)) : SigResult :=
  match sigCh with
  | none =>
    ⟨.ret (some ⟨"Signal channel cannot be nil, it has to be initialized"⟩),
      vmConn, proxyListener, []⟩
  | some [] => ⟨.blocked, vmConn, proxyListener, []⟩
  | some (sig :: _) =>
    if sig ≠ some termSignal then
      match sig with
      | none => ⟨.panicked, vmConn, proxyListener, []⟩
      | some s =>
        ⟨.ret (some ⟨"Signal received should be " ++ lib.quote (lib.sigString termSignal)
            ++ ", got " ++ lib.quote (lib.sigString s) ++ " instead"⟩),
          vmConn, proxyListener, []⟩
    else
      match proxyListener with
      | none => closeVMConn vmConn proxyListener []
      | some none => ⟨.panicked, vmConn, proxyListener, []⟩
      | some (some l) =>
        match l.closeErr with
        | some err => ⟨.ret (some err), vmConn, proxyListener, [.listener l]⟩
        | none => closeVMConn vmConn (some none) [.listener l]

/-! ## `unixAddr` -/

/-- Fields of Go's `url.URL` read by `unixAddr`. -/
structure URL where
  scheme : String
  host : String
  path : String
deriving DecidableEq, Repr

/-- Function `unixAddr(uri)`, returning the pair `(string, error)`.  The
library function `url.Parse` is the parameter `parse`. -/
def unixAddr (parse : String → Except GoError URL) (uri : String) : String × Option GoError :=
  if uri = "" then
    ("", some ⟨"empty uri"⟩)
  else
    match parse uri with
    | .error err => ("", some err)
    | .ok addr =>
      if addr.scheme ≠ "" ∧ addr.scheme ≠ "unix" then
        ("", some ⟨"invalid address scheme"⟩)
      else
        (addr.host ++ addr.path, none)

/-- Answers of `url.Parse` on the two sample addresses, for use where a
concrete parser is needed; every other input is reported as a parse error. -/
def sampleParse (uri : String) : Except GoError URL :=
  if uri = "unix:///tmp/s.sock" then .ok ⟨"unix", "", "/tmp/s.sock"⟩
  else if uri = "tcp://host/path" then .ok ⟨"tcp", "host", "/path"⟩
  else .error ⟨"parse error"⟩

/-! ## The accept loop of `serve` -/

/-- Result `(conn, err)` of `l.Accept()` or `session.Open()`; connections
are identified by a number. -/
structure ConnRet where
  conn : Nat
  err : Option GoError
deriving DecidableEq, Repr

/-- Environment of the accept loop: the answer of the `k`-th call (from 0)
of `l.Accept()` and of `session.Open()`. -/
structure ServeEnv where
  accept : Nat → ConnRet
  openStream : Nat → ConnRet

/-- Effects of the goroutine started by `serve`, in program order: a call of
`l.Accept()` with its result, a call of `session.Open()` with its result,
the statement `go proxyConn(conn, stream)`, the deferred `l.Close()` and the
deferred send `results <- err`. -/
inductive LoopEvent where
  | accept (r : ConnRet)
  | openStream (r : ConnRet)
  | goProxyConn (conn stream : Nat)
  | closeListener
  | send (err : Option GoError)
deriving DecidableEq, Repr

/-- State of the goroutine: whether it has returned, how many `Accept` and
`Open` calls it has made, and its effects so far. -/
structure LoopRun where
  returned : Bool
  nAccept : Nat
  nOpen : Nat
  trace : List LoopEvent
deriving DecidableEq, Repr

/-- Deferred function of the goroutine (lines 55-58): close the listener,
then send `err` on `results`. -/
def deferred (st : LoopRun) (err : Option GoError) : LoopRun :=
  { st with returned := true, trace := st.trace ++ [.closeListener, .send err] }

/-- Loop `for { ... }` of lines 60-73, run for at most `fuel` iterations from
state `st`.  When the fuel runs out the goroutine is still in the loop
(`returned = false`). -/
def acceptLoop (env : ServeEnv) : Nat → LoopRun → LoopRun
  | 0, st => st
  | fuel + 1, st =>
    let a := env.accept st.nAccept
    let st1 := { st with nAccept := st.nAccept + 1, trace := st.trace ++ [.accept a] }
    match a.err with
    | some err => deferred st1 (some err)
    | none =>
      let s := env.openStream st1.nOpen
      let st2 := { st1 with nOpen := st1.nOpen + 1, trace := st1.trace ++ [.openStream s] }
      match s.err with
      | some err => deferred st2 (some err)
      | none =>
        acceptLoop env fuel { st2 with trace := st2.trace ++ [.goProxyConn a.conn s.conn] }

/-- State of the goroutine when it starts. -/
def loopStart : LoopRun := ⟨false, 0, 0, []⟩

/-- Effects of the `i`-th iteration when its `Accept` and `Open` succeed. -/
def iterEvents (env : ServeEnv) (i : Nat) : List LoopEvent :=
  [.accept (env.accept i), .openStream (env.openStream i),
    .goProxyConn (env.accept i).conn (env.openStream i).conn]

/-- Effects of the first `n` iterations when all of them succeed. -/
def successTrace (env : ServeEnv) : Nat → List LoopEvent
  | 0 => []
  | n + 1 => successTrace env n ++ iterEvents env n

/-- Effects of an iteration `k` that fails with `Accept` or, when `Accept`
succeeded, with `Open`. -/
def failEvents (env : ServeEnv) (k : Nat) : List LoopEvent :=
  match (env.accept k).err with
  | some _ => [.accept (env.accept k)]
  | none => [.accept (env.accept k), .openStream (env.openStream k)]

/-- Pairs handed to `proxyConn`, in order. -/
def spawned : List LoopEvent → List (Nat × Nat)
  | [] => []
  | .goProxyConn c s :: es => (c, s) :: spawned es
  | _ :: es => spawned es

/-- Values sent on the results channel, in order. -/
def sent : List LoopEvent → List (Option GoError)
  | [] => []
  | .send e :: es => e :: sent es
  | _ :: es => sent es

/-- Number of `session.Open` calls in a trace. -/
def openCalls : List LoopEvent → Nat
  | [] => 0
  | .openStream _ :: es => openCalls es + 1
  | _ :: es => openCalls es

/-- Number of `l.Accept` calls in a trace. -/
def acceptCalls : List LoopEvent → Nat
  | [] => 0
  | .accept _ :: es => acceptCalls es + 1
  | _ :: es => acceptCalls es

/-- Sample environment: every `Accept` succeeds, `Open` fails on the third
accepted connection. -/
def openFailsThird : ServeEnv :=
  ⟨fun k => ⟨100 + k, none⟩,
   fun k => if k = 2 then ⟨0, some ⟨"open failed"⟩⟩ else ⟨200 + k, none⟩⟩

/-- Sample environment: three connections are accepted and given streams,
then `Accept` fails. -/
def acceptFailsFourth : ServeEnv :=
  ⟨fun k => if k < 3 then ⟨100 + k, none⟩ else ⟨0, some ⟨"listener closed"⟩⟩,
   fun k => ⟨200 + k, none⟩⟩

/-! ## `proxyConn` -/

/-- The three goroutines started by `proxyConn`: `copyStream(conn1, conn2)`,
`copyStream(conn2, conn1)` and the anonymous function that waits. -/
inductive Task where
  | copyA
  | copyB
  | waiter
deriving DecidableEq, Repr

/-- Program points of a goroutine of `proxyConn`. -/
inductive Pc where
  /-- inside `io.Copy` (line 87) -/
  | copying
  /-- before `wg.Wait()` (line 98) -/
  | waiting
  /-- before `once.Do(cleanup)` (lines 89 and 99) -/
  | atOnce
  /-- running `cleanup`, before `conn1.Close()` (line 83) -/
  | close1
  /-- running `cleanup`, before `conn2.Close()` (line 84) -/
  | close2
  /-- after `cleanup` has returned, before `once.Do` returns -/
  | onceExit
  /-- before `wg.Done()` (line 91) -/
  | atDone
  /-- the goroutine has returned -/
  | finished
deriving DecidableEq, Repr

/-- State of a `sync.Once`: no call of `Do` yet, the function passed to the
first call is running, or it has returned. -/
inductive OnceState where
  | fresh
  | running
  | done
deriving DecidableEq, Repr

/-- Shared state of the goroutines of one `proxyConn` call: their program
points, what `io.Copy` returned in each copy goroutine (`none` while it has
not returned), the `Once`, the `WaitGroup` counter and the number of `Close`
calls made on each connection. -/
structure PState where
  pcA : Pc
  pcB : Pc
  pcW : Pc
  errA : Option (Option GoError)
  errB : Option (Option GoError)
  once : OnceState
  wg : Int
  closed1 : Nat
  closed2 : Nat
deriving DecidableEq, Repr

/-- Program point of a goroutine. -/
def PState.pc (s : PState) : Task → Pc
  | .copyA => s.pcA
  | .copyB => s.pcB
  | .waiter => s.pcW

/-- Move a goroutine to a program point. -/
def PState.setPc (s : PState) (t : Task) (p : Pc) : PState :=
  match t with
  | .copyA => { s with pcA := p }
  | .copyB => { s with pcB := p }
  | .waiter => { s with pcW := p }

/-- Statement that follows `once.Do(cleanup)`: `wg.Done()` in `copyStream`,
the end of the function in the waiting goroutine. -/
def afterOnce : Task → Pc
  | .waiter => .finished
  | _ => .atDone

/-- A scheduling step: the `io.Copy` of a copy goroutine returns `err`, or a
goroutine executes its next statement. -/
inductive Action where
  | copyReturns (t : Task) (err : Option GoError)
  | run (t : Task)
deriving DecidableEq, Repr

/-- State after `wg.Add(2)` and the three `go` statements (lines 94-100). -/
def proxyConnStart : PState :=
  ⟨.copying, .copying, .waiting, none, none, .fresh, 2, 0, 0⟩

/-- One step of `proxyConn`; `none` when the action is not enabled (the
goroutine is blocked in `io.Copy`, in `wg.Wait()` or in `once.Do`, or has
returned). -/
def proxyConnStep (s : PState) : Action → Option PState
  | .copyReturns t err =>
    match t, s.pc t with
    | .copyA, .copying =>
      some { s with errA := some err, pcA := if err.isSome then .atOnce else .atDone }
    | .copyB, .copying =>
      some { s with errB := some err, pcB := if err.isSome then .atOnce else .atDone }
    | _, _ => none
  | .run t =>
    match s.pc t with
    | .copying => none
    | .waiting => if s.wg = 0 then some (s.setPc t .atOnce) else none
    | .atOnce =>
      match s.once with
      | .fresh => some ({ s with once := .running }.setPc t .close1)
      | .running => none
      | .done => some (s.setPc t (afterOnce t))
    | .close1 => some ({ s with closed1 := s.closed1 + 1 }.setPc t .close2)
    | .close2 => some ({ s with closed2 := s.closed2 + 1 }.setPc t .onceExit)
    | .onceExit => some ({ s with once := .done }.setPc t (afterOnce t))
    | .atDone => some ({ s with wg := s.wg - 1 }.setPc t .finished)
    | .finished => none

/-- Run a schedule; `none` when some action of it is not enabled. -/
def proxyConnExec : List Action → PState → Option PState
  | [], s => some s
  | a :: as, s =>
    match proxyConnStep s a with
    | none => none
    | some s1 => proxyConnExec as s1

/-- States of `proxyConn` reachable under some outcome of the copies and
some interleaving of the goroutines. -/
def Reachable (s : PState) : Prop :=
  ∃ sched : List Action, proxyConnExec sched proxyConnStart = some s

/-- A copy goroutine has finished: it has returned from `copyStream`. -/
def copyFinished (s : PState) (t : Task) : Prop :=
  t ≠ .waiter ∧ s.pc t = .finished

/-- What `io.Copy` returned in a copy goroutine. -/
def PState.copyErr (s : PState) : Task → Option (Option GoError)
  | .copyA => s.errA
  | .copyB => s.errB
  | .waiter => none

/-- Indicator: the goroutine is inside `once.Do`, running `cleanup`. -/
def inCleanup : Pc → Nat
  | .close1 => 1
  | .close2 => 1
  | .onceExit => 1
  | _ => 0

/-- Indicator: the goroutine is running `cleanup` and has closed `conn1`. -/
def closedFirst : Pc → Nat
  | .close2 => 1
  | .onceExit => 1
  | _ => 0

/-- Indicator: the goroutine is running `cleanup` and has closed `conn2`. -/
def closedSecond : Pc → Nat
  | .onceExit => 1
  | _ => 0

/-- Indicator: the goroutine has not yet passed `wg.Done()`. -/
def pending : Pc → Int
  | .finished => 0
  | _ => 1

/-- Indicator of `OnceState.running`. -/
def isRunning : OnceState → Nat
  | .running => 1
  | _ => 0

/-- Indicator of `OnceState.done`. -/
def isDone : OnceState → Nat
  | .done => 1
  | _ => 0

/-- A copy goroutine whose copy failed is past `once.Do` only when the
`Once` is done. -/
def errPast (p : Pc) (e : Option (Option GoError)) (o : OnceState) : Prop :=
  (p = .atDone ∨ p = .finished) → (∃ x, e = some (some x)) → o = .done

/-- Inductive invariant of `proxyConn`. -/
structure Inv (s : PState) : Prop where
  one_runner : inCleanup s.pcA + inCleanup s.pcB + inCleanup s.pcW = isRunning s.once
  count1 : s.closed1 = isDone s.once + (closedFirst s.pcA + closedFirst s.pcB + closedFirst s.pcW)
  count2 : s.closed2 = isDone s.once + (closedSecond s.pcA + closedSecond s.pcB + closedSecond s.pcW)
  counter : s.wg = pending s.pcA + pending s.pcB
  shapeA : s.pcA ≠ .waiting
  shapeB : s.pcB ≠ .waiting
  shapeW : s.pcW ≠ .copying ∧ s.pcW ≠ .atDone
  waited : s.pcW ≠ .waiting → s.wg = 0
  waiter_done : s.pcW = .finished → s.once = .done
  errA_past : errPast s.pcA s.errA s.once
  errB_past : errPast s.pcB s.errB s.once

/-- A copy goroutine is at `once.Do` or inside it only when its copy
returned an error. -/
def callsOnce (p : Pc) (e : Option (Option GoError)) : Prop :=
  (p = .atOnce ∨ p = .close1 ∨ p = .close2 ∨ p = .onceExit) → ∃ x, e = some (some x)

/-- While a copy goroutine is inside `io.Copy` no result is recorded. -/
def notReturned (p : Pc) (e : Option (Option GoError)) : Prop :=
  p = .copying → e = none

/-- The `Once` has been entered only if a copy returned an error or both
copy goroutines have finished. -/
def triggered (s : PState) : Prop :=
  s.once ≠ .fresh →
    (∃ x, s.errA = some (some x)) ∨ (∃ x, s.errB = some (some x)) ∨
      (s.pcA = .finished ∧ s.pcB = .finished)

/-- When the `Once` has been entered and no copy returned an error, it is
the waiting goroutine that runs or has run `cleanup`. -/
def byWaiter (s : PState) : Prop :=
  s.once ≠ .fresh →
    (∃ x, s.errA = some (some x)) ∨ (∃ x, s.errB = some (some x)) ∨
      (inCleanup s.pcW = 1 ∨ s.pcW = .finished)

/-- Second inductive invariant of `proxyConn`: who may run `cleanup`. -/
structure CleanupInv (s : PState) : Prop where
  onceA : callsOnce s.pcA s.errA
  onceB : callsOnce s.pcB s.errB
  copyingA : notReturned s.pcA s.errA
  copyingB : notReturned s.pcB s.errB
  trigger : triggered s
  waiterRuns : byWaiter s

/-- Number of steps a goroutine at a program point can still take at most. -/
def rank : Pc → Nat
  | .copying => 6
  | .waiting => 6
  | .atOnce => 5
  | .close1 => 4
  | .close2 => 3
  | .onceExit => 2
  | .atDone => 1
  | .finished => 0

/-- Bound on the number of steps left in a state. -/
def stepsLeft (s : PState) : Nat :=
  rank s.pcA + rank s.pcB + rank s.pcW

/-- Schedule in which both copies return, with `ea` and `eb`, before any
goroutine runs, and then the first copy goroutine, the second and the
waiting goroutine each run to completion in turn. -/
def fullSchedule (ea eb : Option GoError) : List Action :=
  [.copyReturns .copyA ea, .copyReturns .copyB eb] ++
  match ea, eb with
  | some _, some _ =>
    List.replicate 5 (.run .copyA) ++ List.replicate 2 (.run .copyB)
      ++ List.replicate 2 (.run .waiter)
  | some _, none =>
    List.replicate 5 (.run .copyA) ++ List.replicate 1 (.run .copyB)
      ++ List.replicate 2 (.run .waiter)
  | none, some _ =>
    List.replicate 1 (.run .copyA) ++ List.replicate 5 (.run .copyB)
      ++ List.replicate 2 (.run .waiter)
  | none, none =>
    List.replicate 1 (.run .copyA) ++ List.replicate 1 (.run .copyB)
      ++ List.replicate 5 (.run .waiter)

/-- State in which all three goroutines have finished, after copies that
returned `ea` and `eb`. -/
def finalState (ea eb : Option GoError) : PState :=
  ⟨.finished, .finished, .finished, some ea, some eb, .done, 0, 1, 1⟩

/-- State in which the first copy goroutine has finished after end-of-stream
while the second is still copying. -/
def eofState : PState :=
  ⟨.finished, .copying, .waiting, some none, none, .fresh, 1, 0, 0⟩

/-- State in which the first copy goroutine has finished after its copy
failed with `e` while the second is still copying. -/
def errorState (e : GoError) : PState :=
  ⟨.finished, .copying, .waiting, some (some e), none, .done, 1, 1, 1⟩

/-- State in which both copies have ended with end-of-stream, both copy
goroutines have finished and the waiting goroutine, running `cleanup`, has
closed `conn1`. -/
def waiterClosingState : PState :=
  ⟨.finished, .finished, .close2, some none, some none, .running, 0, 1, 0⟩

/-- State in which the first copy goroutine, whose copy failed with `e`, is
running `cleanup` and has closed `conn1`, while the second is still copying. -/
def errorClosingState (e : GoError) : PState :=
  ⟨.close2, .copying, .waiting, some (some e), none, .running, 2, 1, 0⟩

/-! ## Configuration check of `main` -/

/-- Constant `proxyName`. -/
def proxyName : String := "kata-proxy"

/-- Command-line flags after `flag.Parse()` (lines 241-252). -/
structure Flags where
  showVersion : Bool
  channel : String
  proxyAddr : String
  agentLogsSocket : String
  logLevel : String
deriving DecidableEq, Repr

/-- Effects of `main` visible from outside the process. -/
inductive MainEvent where
  | printf (s : String)
  | exit (code : Nat)
  | dial (addr : String)
  | listen (addr : String)
  | other (what : String)
deriving DecidableEq, Repr

/-- Function `main` up to and including the check of the required options
(lines 252-262).  `os.Exit` ends the process, so nothing follows it; `rest`
stands for the remainder of `main` (lines 264-322), the only part that dials
or listens. -/
def main (version : String) (rest : Flags → List MainEvent) (fl : Flags) : List MainEvent :=
  if fl.showVersion then
    [.printf (proxyName ++ " version " ++ version ++ "\n"), .exit 0]
  else if fl.channel = "" ∨ fl.proxyAddr = "" then
    [.printf "Option -mux-socket and -listen-socket required\n", .exit 0]
  else
    rest fl

/-- Exit status of a run, if the process called `os.Exit`. -/
def exitStatus : List MainEvent → Option Nat
  | [] => none
  | .exit c :: _ => some c
  | _ :: es => exitStatus es

/-- Whether a run dials or listens on a socket. -/
def opensSocket : List MainEvent → Bool
  | [] => false
  | .dial _ :: _ => true
  | .listen _ :: _ => true
  | _ :: es => opensSocket es

/-! ## Properties of `handleSignal` -/

/-- C1: when the channel delivers SIGTERM and both references are live with
succeeding `Close`, the `Close` calls are exactly listener then transport,
both variables hold nil afterwards and the returned error is nil. -/
theorem handleSignal_term_closes_both (lib : FmtLib) (rest : List (Option Signal))
    (l c : Closer) (hl : l.closeErr = none) (hc : c.closeErr = none) :
    handleSignal lib (some (some termSignal :: rest)) (some (some c)) (some (some l))
      = ⟨.ret none, some none, some none, [.listener l, .transport c]⟩ := by
  simp [handleSignal, closeVMConn, hl, hc]

theorem handleSignal_term_closes_both_witness :
    handleSignal ⟨fun _ => "sig", id⟩ (some [some termSignal]) (some (some ⟨2, none⟩))
        (some (some ⟨1, none⟩))
      = ⟨.ret none, some none, some none, [.listener ⟨1, none⟩, .transport ⟨2, none⟩]⟩ :=
  handleSignal_term_closes_both ⟨fun _ => "sig", id⟩ [] ⟨1, none⟩ ⟨2, none⟩ rfl rfl

/-- C2: when the channel delivers SIGTERM and the live listener's `Close`
fails with `e`, the call returns exactly `e`, the only `Close` call is the
listener's (the transport is never closed) and both variables are unchanged. -/
theorem handleSignal_listener_close_error (lib : FmtLib) (rest : List (Option Signal))
    (l : Closer) (e : GoError) (vmConn : Option (Option Closer))
    (hl : l.closeErr = some e) :
    handleSignal lib (some (some termSignal :: rest)) vmConn (some (some l))
      = ⟨.ret (some e), vmConn, some (some l), [.listener l]⟩ := by
  simp [handleSignal, hl]

theorem handleSignal_listener_close_error_witness :
    handleSignal ⟨fun _ => "sig", id⟩ (some [some termSignal]) (some (some ⟨2, none⟩))
        (some (some ⟨1, some ⟨"close failed"⟩⟩))
      = ⟨.ret (some ⟨"close failed"⟩), some (some ⟨2, none⟩),
          some (some ⟨1, some ⟨"close failed"⟩⟩), [.listener ⟨1, some ⟨"close failed"⟩⟩]⟩ :=
  handleSignal_listener_close_error ⟨fun _ => "sig", id⟩ [] ⟨1, some ⟨"close failed"⟩⟩
    ⟨"close failed"⟩ (some (some ⟨2, none⟩)) rfl


/-- C3: `handleSignal` rejects without touching any resource.  With a nil
channel it returns a non-nil error at once (it does not block), and for a
received signal `s` other than SIGTERM it returns a non-nil error whose
message contains the quoted names of SIGTERM and of `s`; in both cases no
`Close` call is made and both variables are unchanged. -/
theorem handleSignal_rejects (lib : FmtLib) (s : Signal) (rest : List (Option Signal))
    (vmConn proxyListener : Option (Option Closer)) (hs : s ≠ termSignal) :
    (∃ e, handleSignal lib none vmConn proxyListener
        = ⟨.ret (some e), vmConn, proxyListener, []⟩) ∧
    (∃ e, handleSignal lib (some (some s :: rest)) vmConn proxyListener
        = ⟨.ret (some e), vmConn, proxyListener, []⟩ ∧
      e.msg = "Signal received should be " ++ lib.quote (lib.sigString termSignal)
        ++ ", got " ++ lib.quote (lib.sigString s) ++ " instead" ∧
      (lib.quote (lib.sigString termSignal)).data <:+: e.msg.data ∧
      (lib.quote (lib.sigString s)).data <:+: e.msg.data) := by
  refine ⟨⟨_, rfl⟩, ⟨_, ?_, rfl, ?_, ?_⟩⟩
  · simp [handleSignal, hs]
  · refine ⟨"Signal received should be ".data,
      (", got " ++ lib.quote (lib.sigString s) ++ " instead").data, ?_⟩
    simp [String.data_append]
  · refine ⟨("Signal received should be " ++ lib.quote (lib.sigString termSignal)
      ++ ", got ").data, " instead".data, ?_⟩
    simp [String.data_append]

theorem handleSignal_rejects_witness :
    (∃ e, handleSignal ⟨fun n => toString n, id⟩ none (some (some ⟨2, none⟩))
          (some (some ⟨1, none⟩))
        = ⟨.ret (some e), some (some ⟨2, none⟩), some (some ⟨1, none⟩), []⟩) ∧
    (∃ e, handleSignal ⟨fun n => toString n, id⟩ (some [some 2]) (some (some ⟨2, none⟩))
          (some (some ⟨1, none⟩))
        = ⟨.ret (some e), some (some ⟨2, none⟩), some (some ⟨1, none⟩), []⟩ ∧
      e.msg = "Signal received should be " ++ id (toString termSignal)
        ++ ", got " ++ id (toString 2) ++ " instead" ∧
      (id (toString termSignal)).data <:+: e.msg.data ∧
      (id (toString 2)).data <:+: e.msg.data) :=
  handleSignal_rejects ⟨fun n => toString n, id⟩ 2 [] (some (some ⟨2, none⟩))
    (some (some ⟨1, none⟩)) (by decide)

/-- C4 as stated fails: after a first shutdown has set both variables to nil,
a second call with the same (non-nil) pointers panics instead of returning
nil, because only the pointers are compared with nil. -/
theorem handleSignal_nulled_reference_panics :
    (handleSignal ⟨fun _ => "sig", id⟩ (some [some termSignal])
        (handleSignal ⟨fun _ => "sig", id⟩ (some [some termSignal])
          (some (some ⟨2, none⟩)) (some (some ⟨1, none⟩))).vmConn
        (handleSignal ⟨fun _ => "sig", id⟩ (some [some termSignal])
          (some (some ⟨2, none⟩)) (some (some ⟨1, none⟩))).proxyListener).out
      = Outcome.panicked ∧
    (handleSignal ⟨fun _ => "sig", id⟩ (some [some termSignal]) (some none) (some none)).out
      ≠ Outcome.ret none := by
  decide

/-- C4, amended: when the channel delivers SIGTERM, a reference whose pointer
argument is nil is never closed and stays nil, whatever the other reference
is, and when both pointer arguments are nil no `Close` call is made and the
returned error is nil. -/
theorem handleSignal_nil_pointers (lib : FmtLib) (rest : List (Option Signal))
    (vmConn proxyListener : Option (Option Closer)) :
    ((handleSignal lib (some (some termSignal :: rest)) vmConn none).proxyListener = none ∧
      ∀ l, CloseCall.listener l ∉
        (handleSignal lib (some (some termSignal :: rest)) vmConn none).closes) ∧
    ((handleSignal lib (some (some termSignal :: rest)) none proxyListener).vmConn = none ∧
      ∀ c, CloseCall.transport c ∉
        (handleSignal lib (some (some termSignal :: rest)) none proxyListener).closes) ∧
    handleSignal lib (some (some termSignal :: rest)) none none = ⟨.ret none, none, none, []⟩ := by
  refine ⟨⟨?_, ?_⟩, ⟨?_, ?_⟩, ?_⟩
  · rcases vmConn with _ | _ | c
    · simp [handleSignal, closeVMConn]
    · simp [handleSignal, closeVMConn]
    · cases h : c.closeErr <;> simp [handleSignal, closeVMConn, h]
  · intro l
    rcases vmConn with _ | _ | c
    · simp [handleSignal, closeVMConn]
    · simp [handleSignal, closeVMConn]
    · cases h : c.closeErr <;> simp [handleSignal, closeVMConn, h]
  · rcases proxyListener with _ | _ | l
    · simp [handleSignal, closeVMConn]
    · simp [handleSignal, closeVMConn]
    · cases h : l.closeErr <;> simp [handleSignal, closeVMConn, h]
  · intro c
    rcases proxyListener with _ | _ | l
    · simp [handleSignal, closeVMConn]
    · simp [handleSignal, closeVMConn]
    · cases h : l.closeErr <;> simp [handleSignal, closeVMConn, h]
  · simp [handleSignal, closeVMConn]

/-! ## Properties of `unixAddr` -/

/-- C5: `unixAddr` fails exactly when the uri is empty, or `url.Parse` fails,
or the parsed scheme is neither empty nor "unix"; otherwise it returns
host ++ path with a nil error.  In particular it fails on the empty string,
and, `url.Parse` answering scheme "unix", empty host and path "/tmp/s.sock"
on "unix:///tmp/s.sock" and scheme "tcp" on "tcp://host/path", it returns
"/tmp/s.sock" for the first and fails for the second. -/
theorem unixAddr_spec (parse : String → Except GoError URL) (uri : String) :
    ((unixAddr parse uri).2 ≠ none ↔
      (uri = "" ∨ (∃ err, parse uri = .error err) ∨
        ∃ addr, parse uri = .ok addr ∧ addr.scheme ≠ "" ∧ addr.scheme ≠ "unix")) ∧
    ((unixAddr parse uri).2 = none →
      ∃ addr, parse uri = .ok addr ∧ unixAddr parse uri = (addr.host ++ addr.path, none)) ∧
    (unixAddr parse "").2 ≠ none ∧
    (parse "unix:///tmp/s.sock" = .ok ⟨"unix", "", "/tmp/s.sock"⟩ →
      unixAddr parse "unix:///tmp/s.sock" = ("/tmp/s.sock", none)) ∧
    (parse "tcp://host/path" = .ok ⟨"tcp", "host", "/path"⟩ →
      (unixAddr parse "tcp://host/path").2 ≠ none) := by
  refine ⟨?_, ?_, ?_, ?_, ?_⟩
  · by_cases h0 : uri = ""
    · simp [unixAddr, h0]
    · cases hp : parse uri with
      | error err => simp [unixAddr, h0, hp]
      | ok addr =>
        by_cases hs : addr.scheme ≠ "" ∧ addr.scheme ≠ "unix"
        · simp only [unixAddr, h0, hp, if_false, hs]
          simp [hs.1, hs.2]
        · simp only [unixAddr, h0, hp, if_false, hs]
          simp only [ne_eq, not_true_eq_false, false_or, false_iff, not_exists, not_and]
          rintro (⟨err, he⟩ | ⟨a, ha, h1, h2⟩)
          · cases he
          · cases ha
            exact hs ⟨h1, h2⟩
  · by_cases h0 : uri = ""
    · simp [unixAddr, h0]
    · cases hp : parse uri with
      | error err => simp [unixAddr, h0, hp]
      | ok addr =>
        by_cases hs : addr.scheme ≠ "" ∧ addr.scheme ≠ "unix"
        · simp [unixAddr, h0, hp, hs]
        · intro _
          refine ⟨addr, rfl, ?_⟩
          simp only [unixAddr, h0, hp, if_false, hs]
  · simp [unixAddr]
  · intro hunix
    simp [unixAddr, hunix]
  · intro htcp
    simp [unixAddr, htcp]

/-- The three sample addresses under a parser that answers as `url.Parse`
does on them. -/
theorem unixAddr_samples :
    (unixAddr sampleParse "").2 ≠ none ∧
    unixAddr sampleParse "unix:///tmp/s.sock" = ("/tmp/s.sock", none) ∧
    (unixAddr sampleParse "tcp://host/path").2 ≠ none :=
  ⟨(unixAddr_spec sampleParse "").2.2.1,
   (unixAddr_spec sampleParse "").2.2.2.1 (by simp [sampleParse]),
   (unixAddr_spec sampleParse "").2.2.2.2 (by simp [sampleParse])⟩

/-! ## Properties of the accept loop -/

section AcceptLoop

variable (env : ServeEnv)

theorem sent_append (xs ys : List LoopEvent) : sent (xs ++ ys) = sent xs ++ sent ys := by
  induction xs with
  | nil => rfl
  | cons x xs ih => cases x <;> simp [sent, ih]

theorem spawned_append (xs ys : List LoopEvent) :
    spawned (xs ++ ys) = spawned xs ++ spawned ys := by
  induction xs with
  | nil => rfl
  | cons x xs ih => cases x <;> simp [spawned, ih]

theorem openCalls_append (xs ys : List LoopEvent) :
    openCalls (xs ++ ys) = openCalls xs + openCalls ys := by
  induction xs with
  | nil => simp [openCalls]
  | cons x xs ih =>
    cases x <;> simp [openCalls, ih]
    omega

theorem acceptCalls_append (xs ys : List LoopEvent) :
    acceptCalls (xs ++ ys) = acceptCalls xs + acceptCalls ys := by
  induction xs with
  | nil => simp [acceptCalls]
  | cons x xs ih =>
    cases x <;> simp [acceptCalls, ih]
    omega

theorem sent_successTrace (n : Nat) : sent (successTrace env n) = [] := by
  induction n with
  | zero => rfl
  | succ n ih => simp [successTrace, sent_append, ih, iterEvents, sent]

theorem openCalls_successTrace (n : Nat) : openCalls (successTrace env n) = n := by
  induction n with
  | zero => rfl
  | succ n ih => simp [successTrace, openCalls_append, ih, iterEvents, openCalls]

theorem acceptCalls_successTrace (n : Nat) : acceptCalls (successTrace env n) = n := by
  induction n with
  | zero => rfl
  | succ n ih => simp [successTrace, acceptCalls_append, ih, iterEvents, acceptCalls]

theorem spawned_successTrace (n : Nat) :
    spawned (successTrace env n)
      = (List.range n).map (fun i => ((env.accept i).conn, (env.openStream i).conn)) := by
  induction n with
  | zero => rfl
  | succ n ih => simp [successTrace, spawned_append, ih, iterEvents, spawned, List.range_succ]

/-- An iteration whose `Accept` and `Open` succeed hands the pair to
`proxyConn` and goes round the loop. -/
theorem acceptLoop_ok (fuel : Nat) (st : LoopRun)
    (ha : (env.accept st.nAccept).err = none) (ho : (env.openStream st.nOpen).err = none) :
    acceptLoop env (fuel + 1) st
      = acceptLoop env fuel ⟨st.returned, st.nAccept + 1, st.nOpen + 1,
          st.trace ++ [.accept (env.accept st.nAccept), .openStream (env.openStream st.nOpen),
            .goProxyConn (env.accept st.nAccept).conn (env.openStream st.nOpen).conn]⟩ := by
  simp [acceptLoop, ha, ho]

/-- After `n` successful iterations the goroutine is in the state
`⟨false, n, n, successTrace env n⟩`. -/
theorem acceptLoop_successes (n fuel : Nat)
    (hok : ∀ i, i < n → (env.accept i).err = none ∧ (env.openStream i).err = none) :
    acceptLoop env (n + fuel) loopStart
      = acceptLoop env fuel ⟨false, n, n, successTrace env n⟩ := by
  induction n generalizing fuel with
  | zero => simp [loopStart, successTrace]
  | succ n ih =>
    have h := ih (fuel + 1) (fun i hi => hok i (Nat.lt_succ_of_lt hi))
    have e : n + 1 + fuel = n + (fuel + 1) := by omega
    rw [e, h, acceptLoop_ok env fuel _ (hok n (Nat.lt_succ_self n)).1
      (hok n (Nat.lt_succ_self n)).2]
    simp [successTrace, iterEvents]

/-- A failing iteration runs the deferred function and ends the goroutine. -/
theorem acceptLoop_fail (fuel k : Nat) (tr : List LoopEvent) (e : GoError)
    (hfail : (env.accept k).err = some e ∨
      ((env.accept k).err = none ∧ (env.openStream k).err = some e)) :
    (acceptLoop env (fuel + 1) ⟨false, k, k, tr⟩).returned = true ∧
    (acceptLoop env (fuel + 1) ⟨false, k, k, tr⟩).trace
      = tr ++ failEvents env k ++ [.closeListener, .send (some e)] := by
  rcases hfail with h | ⟨h1, h2⟩
  · simp [acceptLoop, h, deferred, failEvents]
  · simp [acceptLoop, h1, h2, deferred, failEvents]

end AcceptLoop

/-- C8: if the first `n` iterations of the accept loop succeed and the next
one (the `k`-th with `k = n + 1`) fails with `e`, in `Accept` or, `Accept`
having succeeded, in `session.Open`, then with enough fuel the goroutine
returns; its effects are those of the `n` successful iterations, the calls
of the failing iteration, the `Close` of the listener and last the send of
`e` on the results channel, so `e` is the only value sent, `n + 1` `Accept`
calls are made in all and nothing follows the send. -/
theorem acceptLoop_first_failure (env : ServeEnv) (n fuel : Nat) (e : GoError)
    (hok : ∀ i, i < n → (env.accept i).err = none ∧ (env.openStream i).err = none)
    (hfail : (env.accept n).err = some e ∨
      ((env.accept n).err = none ∧ (env.openStream n).err = some e))
    (hfuel : n < fuel) :
    (acceptLoop env fuel loopStart).returned = true ∧
    (acceptLoop env fuel loopStart).trace
      = successTrace env n ++ failEvents env n ++ [.closeListener, .send (some e)] ∧
    sent (acceptLoop env fuel loopStart).trace = [some e] ∧
    acceptCalls (acceptLoop env fuel loopStart).trace = n + 1 ∧
    openCalls (acceptLoop env fuel loopStart).trace ≤ n + 1 ∧
    (acceptLoop env fuel loopStart).trace.getLast? = some (.send (some e)) ∧
    LoopEvent.closeListener ∈ (acceptLoop env fuel loopStart).trace := by
  obtain ⟨d, rfl⟩ : ∃ d, fuel = n + (d + 1) := ⟨fuel - n - 1, by omega⟩
  rw [acceptLoop_successes env n (d + 1) hok]
  obtain ⟨hret, htr⟩ := acceptLoop_fail env d n (successTrace env n) e hfail
  refine ⟨hret, htr, ?_, ?_, ?_, ?_, ?_⟩
  · rw [htr]
    rcases hfail with h | ⟨h1, h2⟩
    · simp [sent_append, sent_successTrace, failEvents, h, sent]
    · simp [sent_append, sent_successTrace, failEvents, h1, sent]
  · rw [htr]
    rcases hfail with h | ⟨h1, h2⟩
    · simp [acceptCalls_append, acceptCalls_successTrace, failEvents, h, acceptCalls]
    · simp [acceptCalls_append, acceptCalls_successTrace, failEvents, h1, acceptCalls]
  · rw [htr]
    rcases hfail with h | ⟨h1, h2⟩
    · simp [openCalls_append, openCalls_successTrace, failEvents, h, openCalls]
    · simp [openCalls_append, openCalls_successTrace, failEvents, h1, openCalls]
  · rw [htr]
    simp [List.getLast?_append]
  · rw [htr]
    simp

theorem acceptLoop_first_failure_witness :
    (acceptLoop openFailsThird 5 loopStart).returned = true ∧
    (acceptLoop openFailsThird 5 loopStart).trace
      = successTrace openFailsThird 2 ++ failEvents openFailsThird 2
        ++ [.closeListener, .send (some ⟨"open failed"⟩)] ∧
    sent (acceptLoop openFailsThird 5 loopStart).trace = [some ⟨"open failed"⟩] ∧
    acceptCalls (acceptLoop openFailsThird 5 loopStart).trace = 2 + 1 ∧
    openCalls (acceptLoop openFailsThird 5 loopStart).trace ≤ 2 + 1 ∧
    (acceptLoop openFailsThird 5 loopStart).trace.getLast?
      = some (.send (some ⟨"open failed"⟩)) ∧
    LoopEvent.closeListener ∈ (acceptLoop openFailsThird 5 loopStart).trace :=
  acceptLoop_first_failure openFailsThird 2 5 ⟨"open failed"⟩
    (by intro i hi; have h2 : i ≠ 2 := Nat.ne_of_lt hi; simp [openFailsThird, h2])
    (Or.inr (by simp [openFailsThird])) (by decide)

/-- C9: when the first `N` `Accept` calls and the `Open` calls made for them
succeed, then after `N` iterations the loop is still running, has called
`session.Open` exactly `N` times and has handed exactly `N` pairs to
`proxyConn`, the `i`-th pair being the `i`-th accepted connection and the
stream opened by the `i`-th `Open` call; when the session returns distinct
streams no stream occurs in two pairs.  If the next `Accept` fails, the
finished run has the same `N` `Open` calls and the same `N` pairs. -/
theorem acceptLoop_one_stream_each (env : ServeEnv) (N : Nat)
    (hok : ∀ i, i < N → (env.accept i).err = none ∧ (env.openStream i).err = none) :
    acceptLoop env N loopStart = ⟨false, N, N, successTrace env N⟩ ∧
    openCalls (successTrace env N) = N ∧
    acceptCalls (successTrace env N) = N ∧
    spawned (successTrace env N)
      = (List.range N).map (fun i => ((env.accept i).conn, (env.openStream i).conn)) ∧
    (spawned (successTrace env N)).length = N ∧
    ((∀ i j, i < N → j < N → (env.openStream i).conn = (env.openStream j).conn → i = j) →
      ((spawned (successTrace env N)).map Prod.snd).Nodup) ∧
    (∀ e fuel, (env.accept N).err = some e → N < fuel →
      (acceptLoop env fuel loopStart).returned = true ∧
      openCalls (acceptLoop env fuel loopStart).trace = N ∧
      spawned (acceptLoop env fuel loopStart).trace
        = (List.range N).map (fun i => ((env.accept i).conn, (env.openStream i).conn))) := by
  refine ⟨?_, openCalls_successTrace env N, acceptCalls_successTrace env N,
    spawned_successTrace env N, ?_, ?_, ?_⟩
  · have h := acceptLoop_successes env N 0 hok
    simpa [acceptLoop] using h
  · simp [spawned_successTrace]
  · intro hinj
    rw [spawned_successTrace, List.map_map]
    refine List.Nodup.map_on ?_ (List.nodup_range N)
    intro i hi j hj hij
    exact hinj i j (List.mem_range.mp hi) (List.mem_range.mp hj) hij
  · intro e fuel hacc hfuel
    obtain ⟨d, rfl⟩ : ∃ d, fuel = N + (d + 1) := ⟨fuel - N - 1, by omega⟩
    rw [acceptLoop_successes env N (d + 1) hok]
    obtain ⟨hret, htr⟩ := acceptLoop_fail env d N (successTrace env N) e (Or.inl hacc)
    refine ⟨hret, ?_, ?_⟩
    · rw [htr]
      simp [openCalls_append, openCalls_successTrace, failEvents, hacc, openCalls]
    · rw [htr]
      simp [spawned_append, spawned_successTrace, failEvents, hacc, spawned]

theorem acceptLoop_one_stream_each_witness :
    acceptLoop acceptFailsFourth 3 loopStart = ⟨false, 3, 3, successTrace acceptFailsFourth 3⟩ ∧
    openCalls (successTrace acceptFailsFourth 3) = 3 ∧
    acceptCalls (successTrace acceptFailsFourth 3) = 3 ∧
    spawned (successTrace acceptFailsFourth 3)
      = (List.range 3).map
          (fun i => ((acceptFailsFourth.accept i).conn, (acceptFailsFourth.openStream i).conn)) ∧
    (spawned (successTrace acceptFailsFourth 3)).length = 3 ∧
    ((∀ i j, i < 3 → j < 3 →
        (acceptFailsFourth.openStream i).conn = (acceptFailsFourth.openStream j).conn → i = j) →
      ((spawned (successTrace acceptFailsFourth 3)).map Prod.snd).Nodup) ∧
    (∀ e fuel, (acceptFailsFourth.accept 3).err = some e → 3 < fuel →
      (acceptLoop acceptFailsFourth fuel loopStart).returned = true ∧
      openCalls (acceptLoop acceptFailsFourth fuel loopStart).trace = 3 ∧
      spawned (acceptLoop acceptFailsFourth fuel loopStart).trace
        = (List.range 3).map
            (fun i => ((acceptFailsFourth.accept i).conn, (acceptFailsFourth.openStream i).conn))) :=
  acceptLoop_one_stream_each acceptFailsFourth 3
    (by intro i hi; simp [acceptFailsFourth, hi])

/-! ## Properties of `proxyConn` -/

theorem inCleanup_vals :
    inCleanup .copying = 0 ∧ inCleanup .waiting = 0 ∧ inCleanup .atOnce = 0 ∧
    inCleanup .close1 = 1 ∧ inCleanup .close2 = 1 ∧ inCleanup .onceExit = 1 ∧
    inCleanup .atDone = 0 ∧ inCleanup .finished = 0 :=
  ⟨rfl, rfl, rfl, rfl, rfl, rfl, rfl, rfl⟩

theorem closedFirst_vals :
    closedFirst .copying = 0 ∧ closedFirst .waiting = 0 ∧ closedFirst .atOnce = 0 ∧
    closedFirst .close1 = 0 ∧ closedFirst .close2 = 1 ∧ closedFirst .onceExit = 1 ∧
    closedFirst .atDone = 0 ∧ closedFirst .finished = 0 :=
  ⟨rfl, rfl, rfl, rfl, rfl, rfl, rfl, rfl⟩

theorem closedSecond_vals :
    closedSecond .copying = 0 ∧ closedSecond .waiting = 0 ∧ closedSecond .atOnce = 0 ∧
    closedSecond .close1 = 0 ∧ closedSecond .close2 = 0 ∧ closedSecond .onceExit = 1 ∧
    closedSecond .atDone = 0 ∧ closedSecond .finished = 0 :=
  ⟨rfl, rfl, rfl, rfl, rfl, rfl, rfl, rfl⟩

theorem pending_vals :
    pending .copying = 1 ∧ pending .waiting = 1 ∧ pending .atOnce = 1 ∧
    pending .close1 = 1 ∧ pending .close2 = 1 ∧ pending .onceExit = 1 ∧
    pending .atDone = 1 ∧ pending .finished = 0 :=
  ⟨rfl, rfl, rfl, rfl, rfl, rfl, rfl, rfl⟩

theorem once_vals :
    isRunning .fresh = 0 ∧ isRunning .running = 1 ∧ isRunning .done = 0 ∧
    isDone .fresh = 0 ∧ isDone .running = 0 ∧ isDone .done = 1 :=
  ⟨rfl, rfl, rfl, rfl, rfl, rfl⟩

theorem pending_nonneg (p : Pc) : 0 ≤ pending p := by
  cases p <;> simp [pending]

theorem closedFirst_le (p : Pc) : closedFirst p ≤ inCleanup p := by
  cases p <;> simp [closedFirst, inCleanup]

theorem closedSecond_le (p : Pc) : closedSecond p ≤ closedFirst p := by
  cases p <;> simp [closedSecond, closedFirst]

theorem once_indicators (o : OnceState) : isRunning o + isDone o ≤ 1 := by
  cases o <;> simp [isRunning, isDone]

theorem inv_start : Inv proxyConnStart := by
  constructor <;>
    simp [proxyConnStart, inCleanup, closedFirst, closedSecond, pending, isRunning, isDone,
      errPast]

/-- The return of an `io.Copy` preserves the invariant. -/
theorem step_inv_copyReturns (s s1 : PState) (t : Task) (err : Option GoError) (hinv : Inv s)
    (hstep : proxyConnStep s (.copyReturns t err) = some s1) : Inv s1 := by
  obtain ⟨pcA, pcB, pcW, errA, errB, once, wg, c1, c2⟩ := s
  obtain ⟨h1, h2, h3, h4, h5, h6, h7, h8, h9, h10, h11⟩ := hinv
  have pA := pending_nonneg pcA
  have pB := pending_nonneg pcB
  dsimp only at h1 h2 h3 h4 h5 h6 h7 h8 h9 h10 h11
  cases t
  · cases pcA <;> simp [proxyConnStep, PState.pc] at hstep
    subst hstep
    cases err <;> constructor <;>
      simp_all [inCleanup_vals, closedFirst_vals, closedSecond_vals, pending_vals, errPast]
  · cases pcB <;> simp [proxyConnStep, PState.pc] at hstep
    subst hstep
    cases err <;> constructor <;>
      simp_all [inCleanup_vals, closedFirst_vals, closedSecond_vals, pending_vals, errPast]
  · simp [proxyConnStep, PState.pc] at hstep

/-- A statement of the first copy goroutine preserves the invariant. -/
theorem step_inv_runA (s s1 : PState) (hinv : Inv s)
    (hstep : proxyConnStep s (.run .copyA) = some s1) : Inv s1 := by
  obtain ⟨pcA, pcB, pcW, errA, errB, once, wg, c1, c2⟩ := s
  obtain ⟨h1, h2, h3, h4, h5, h6, h7, h8, h9, h10, h11⟩ := hinv
  have pA := pending_nonneg pcA
  have pB := pending_nonneg pcB
  dsimp only at h1 h2 h3 h4 h5 h6 h7 h8 h9 h10 h11
  cases pcA <;> cases once <;>
    simp [proxyConnStep, PState.pc, PState.setPc] at hstep h5
  all_goals
    obtain ⟨hw, rfl⟩ := hstep
  all_goals
    simp only [inCleanup_vals, closedFirst_vals, closedSecond_vals, pending_vals,
      once_vals] at h1 h2 h3 h4
  all_goals
    constructor <;> dsimp only <;>
    (try simp only [inCleanup_vals, closedFirst_vals, closedSecond_vals, pending_vals,
      once_vals, afterOnce]) <;>
    first
      | omega
      | assumption
      | (intro hne; have hz := h8 hne; omega)
      | (simp [errPast]; done)
      | (unfold errPast; intro hp he; exact absurd (h11 hp he) (by simp))
      | simp_all [errPast]

/-- A statement of the second copy goroutine preserves the invariant. -/
theorem step_inv_runB (s s1 : PState) (hinv : Inv s)
    (hstep : proxyConnStep s (.run .copyB) = some s1) : Inv s1 := by
  obtain ⟨pcA, pcB, pcW, errA, errB, once, wg, c1, c2⟩ := s
  obtain ⟨h1, h2, h3, h4, h5, h6, h7, h8, h9, h10, h11⟩ := hinv
  have pA := pending_nonneg pcA
  have pB := pending_nonneg pcB
  dsimp only at h1 h2 h3 h4 h5 h6 h7 h8 h9 h10 h11
  cases pcB <;> cases once <;>
    simp [proxyConnStep, PState.pc, PState.setPc] at hstep h6
  all_goals
    obtain ⟨hw, rfl⟩ := hstep
  all_goals
    simp only [inCleanup_vals, closedFirst_vals, closedSecond_vals, pending_vals,
      once_vals] at h1 h2 h3 h4
  all_goals
    constructor <;> dsimp only <;>
    (try simp only [inCleanup_vals, closedFirst_vals, closedSecond_vals, pending_vals,
      once_vals, afterOnce]) <;>
    first
      | omega
      | assumption
      | (intro hne; have hz := h8 hne; omega)
      | (simp [errPast]; done)
      | (unfold errPast; intro hp he; exact absurd (h10 hp he) (by simp))
      | simp_all [errPast]

/-- A statement of the waiting goroutine preserves the invariant. -/
theorem step_inv_runW (s s1 : PState) (hinv : Inv s)
    (hstep : proxyConnStep s (.run .waiter) = some s1) : Inv s1 := by
  obtain ⟨pcA, pcB, pcW, errA, errB, once, wg, c1, c2⟩ := s
  obtain ⟨h1, h2, h3, h4, h5, h6, h7, h8, h9, h10, h11⟩ := hinv
  have pA := pending_nonneg pcA
  have pB := pending_nonneg pcB
  dsimp only at h1 h2 h3 h4 h5 h6 h7 h8 h9 h10 h11
  cases pcW <;> cases once <;>
    simp [proxyConnStep, PState.pc, PState.setPc] at hstep h7
  all_goals
    obtain ⟨hw, rfl⟩ := hstep
  all_goals
    simp only [inCleanup_vals, closedFirst_vals, closedSecond_vals, pending_vals,
      once_vals] at h1 h2 h3 h4
  all_goals
    constructor <;> dsimp only <;>
    (try simp only [inCleanup_vals, closedFirst_vals, closedSecond_vals, pending_vals,
      once_vals, afterOnce]) <;>
    first
      | omega
      | assumption
      | (intro _; exact h8 (by simp))
      | (simp [errPast]; done)
      | (unfold errPast; intro hp he; first
          | exact absurd (h10 hp he) (by simp)
          | exact absurd (h11 hp he) (by simp))

/-- Every step preserves the invariant. -/
theorem step_inv (s s1 : PState) (a : Action) (hinv : Inv s)
    (hstep : proxyConnStep s a = some s1) : Inv s1 := by
  cases a with
  | copyReturns t err => exact step_inv_copyReturns s s1 t err hinv hstep
  | run t =>
    cases t
    · exact step_inv_runA s s1 hinv hstep
    · exact step_inv_runB s s1 hinv hstep
    · exact step_inv_runW s s1 hinv hstep

/-- Running a schedule preserves the invariant. -/
theorem exec_inv (sched : List Action) (s s1 : PState) (hinv : Inv s)
    (hexec : proxyConnExec sched s = some s1) : Inv s1 := by
  induction sched generalizing s with
  | nil =>
    simp only [proxyConnExec, Option.some.injEq] at hexec
    exact hexec ▸ hinv
  | cons a rest ih =>
    simp only [proxyConnExec] at hexec
    cases hs : proxyConnStep s a with
    | none => simp [hs] at hexec
    | some s2 =>
      rw [hs] at hexec
      exact ih s2 (step_inv s s2 a hinv hs) hexec

/-- Every reachable state satisfies the invariant. -/
theorem reachable_inv (s : PState) (h : Reachable s) : Inv s := by
  obtain ⟨sched, hs⟩ := h
  exact exec_inv sched proxyConnStart s inv_start hs

theorem pending_finished (p : Pc) (h : pending p = 0) : p = .finished := by
  cases p <;> simp [pending] at h ⊢

theorem cleanupInv_start : CleanupInv proxyConnStart := by
  constructor <;> simp [proxyConnStart, callsOnce, notReturned, triggered, byWaiter]

/-- The return of an `io.Copy` preserves the second invariant. -/
theorem step_cleanupInv_copyReturns (s s1 : PState) (t : Task) (err : Option GoError)
    (hc : CleanupInv s) (hstep : proxyConnStep s (.copyReturns t err) = some s1) :
    CleanupInv s1 := by
  obtain ⟨pcA, pcB, pcW, errA, errB, once, wg, c1, c2⟩ := s
  obtain ⟨k1, k2, k3, k4, k5, k6⟩ := hc
  dsimp only [triggered, byWaiter] at k1 k2 k3 k4 k5 k6
  cases t
  · cases pcA <;> simp [proxyConnStep, PState.pc] at hstep
    subst hstep
    have hA : errA = none := k3 rfl
    subst hA
    cases err <;> constructor <;> dsimp only [triggered, byWaiter] <;>
      first
        | assumption
        | (simp [callsOnce, notReturned]; done)
        | (intro hne; rcases k5 hne with ⟨x, hx⟩ | hx | hx
           · simp at hx
           · exact Or.inr (Or.inl hx)
           · simp at hx)
  · cases pcB <;> simp [proxyConnStep, PState.pc] at hstep
    subst hstep
    have hB : errB = none := k4 rfl
    subst hB
    cases err <;> constructor <;> dsimp only [triggered, byWaiter] <;>
      first
        | assumption
        | (simp [callsOnce, notReturned]; done)
        | (intro hne; rcases k5 hne with hx | ⟨x, hx⟩ | hx
           · exact Or.inl hx
           · simp at hx
           · simp at hx)
  · simp [proxyConnStep, PState.pc] at hstep

/-- A statement of the first copy goroutine preserves the second invariant. -/
theorem step_cleanupInv_runA (s s1 : PState) (hinv : Inv s) (hc : CleanupInv s)
    (hstep : proxyConnStep s (.run .copyA) = some s1) : CleanupInv s1 := by
  have h5 := hinv.shapeA
  obtain ⟨pcA, pcB, pcW, errA, errB, once, wg, c1, c2⟩ := s
  obtain ⟨k1, k2, k3, k4, k5, k6⟩ := hc
  dsimp only [triggered, byWaiter] at k1 k2 k3 k4 k5 k6 h5
  cases pcA <;> cases once <;>
    simp [proxyConnStep, PState.pc, PState.setPc] at hstep h5
  all_goals
    obtain ⟨hw, rfl⟩ := hstep
  all_goals
    constructor <;> dsimp only [triggered, byWaiter, afterOnce] <;>
    first
      | assumption
      | (simp [callsOnce, notReturned]; done)
      | (intro _; refine k1 ?_; simp)
      | (intro hne; first
          | exact absurd rfl hne
          | (refine Or.inl (k1 ?_); simp; done)
          | (rcases k5 hne with hx | hx | hx
             · exact Or.inl hx
             · exact Or.inr (Or.inl hx)
             · exact absurd hx.1 (by simp)))

/-- A statement of the second copy goroutine preserves the second invariant. -/
theorem step_cleanupInv_runB (s s1 : PState) (hinv : Inv s) (hc : CleanupInv s)
    (hstep : proxyConnStep s (.run .copyB) = some s1) : CleanupInv s1 := by
  have h5 := hinv.shapeB
  obtain ⟨pcA, pcB, pcW, errA, errB, once, wg, c1, c2⟩ := s
  obtain ⟨k1, k2, k3, k4, k5, k6⟩ := hc
  dsimp only [triggered, byWaiter] at k1 k2 k3 k4 k5 k6 h5
  cases pcB <;> cases once <;>
    simp [proxyConnStep, PState.pc, PState.setPc] at hstep h5
  all_goals
    obtain ⟨hw, rfl⟩ := hstep
  all_goals
    constructor <;> dsimp only [triggered, byWaiter, afterOnce] <;>
    first
      | assumption
      | (simp [callsOnce, notReturned]; done)
      | (intro _; refine k2 ?_; simp)
      | (intro hne; first
          | exact absurd rfl hne
          | (refine Or.inr (Or.inl (k2 ?_)); simp; done)
          | (rcases k5 hne with hx | hx | hx
             · exact Or.inl hx
             · exact Or.inr (Or.inl hx)
             · exact absurd hx.2 (by simp)))

/-- A statement of the waiting goroutine preserves the second invariant. -/
theorem step_cleanupInv_runW (s s1 : PState) (hinv : Inv s) (hc : CleanupInv s)
    (hstep : proxyConnStep s (.run .waiter) = some s1) : CleanupInv s1 := by
  have h4 := hinv.counter
  have h8 := hinv.waited
  obtain ⟨pcA, pcB, pcW, errA, errB, once, wg, c1, c2⟩ := s
  obtain ⟨k1, k2, k3, k4, k5, k6⟩ := hc
  have pA := pending_nonneg pcA
  have pB := pending_nonneg pcB
  dsimp only [triggered, byWaiter] at k1 k2 k3 k4 k5 k6 h4 h8
  cases pcW <;> cases once <;>
    simp [proxyConnStep, PState.pc, PState.setPc] at hstep
  all_goals
    obtain ⟨hw, rfl⟩ := hstep
  all_goals
    constructor <;> dsimp only [triggered, byWaiter, afterOnce] <;>
    first
      | assumption
      | (intro _; refine k5 ?_; simp; done)
      | (intro _; refine Or.inr (Or.inr ?_); simp [inCleanup]; done)
      | (intro hne
         have hk := k6 hne
         rcases hk with hx | hx | hx
         · exact Or.inl hx
         · exact Or.inr (Or.inl hx)
         · simp [inCleanup] at hx)
      | (intro _
         have hz : wg = 0 := by refine h8 ?_; simp
         exact Or.inr (Or.inr ⟨pending_finished pcA (by omega), pending_finished pcB (by omega)⟩))

/-- Every step preserves the second invariant. -/
theorem step_cleanupInv (s s1 : PState) (a : Action) (hinv : Inv s) (hc : CleanupInv s)
    (hstep : proxyConnStep s a = some s1) : CleanupInv s1 := by
  cases a with
  | copyReturns t err => exact step_cleanupInv_copyReturns s s1 t err hc hstep
  | run t =>
    cases t
    · exact step_cleanupInv_runA s s1 hinv hc hstep
    · exact step_cleanupInv_runB s s1 hinv hc hstep
    · exact step_cleanupInv_runW s s1 hinv hc hstep

/-- Running a schedule preserves both invariants. -/
theorem exec_cleanupInv (sched : List Action) (s s1 : PState) (hinv : Inv s)
    (hc : CleanupInv s) (hexec : proxyConnExec sched s = some s1) : CleanupInv s1 := by
  induction sched generalizing s with
  | nil =>
    simp only [proxyConnExec, Option.some.injEq] at hexec
    exact hexec ▸ hc
  | cons a rest ih =>
    simp only [proxyConnExec] at hexec
    cases hs : proxyConnStep s a with
    | none => simp [hs] at hexec
    | some s2 =>
      rw [hs] at hexec
      exact ih s2 (step_inv s s2 a hinv hs) (step_cleanupInv s s2 a hinv hc hs) hexec

/-- Every reachable state satisfies the second invariant. -/
theorem reachable_cleanupInv (s : PState) (h : Reachable s) : CleanupInv s := by
  obtain ⟨sched, hs⟩ := h
  exact exec_cleanupInv sched proxyConnStart s inv_start cleanupInv_start hs

/-- Whatever the two copies return, some interleaving lets all three
goroutines finish. -/
theorem fullSchedule_finishes (ea eb : Option GoError) :
    proxyConnExec (fullSchedule ea eb) proxyConnStart = some (finalState ea eb) := by
  cases ea <;> cases eb <;> rfl

/-- No deadlock: in a reachable state either all three goroutines have
finished or some step is enabled. -/
theorem proxyConn_progress (s : PState) (h : Reachable s) :
    (s.pcA = .finished ∧ s.pcB = .finished ∧ s.pcW = .finished) ∨
    ∃ a s1, proxyConnStep s a = some s1 := by
  have inv := reachable_inv s h
  obtain ⟨pcA, pcB, pcW, errA, errB, once, wg, c1, c2⟩ := s
  obtain ⟨h1, h2, h3, h4, h5, h6, h7, h8, h9, h10, h11⟩ := inv
  dsimp only at h1 h4 h5 h6 h7
  subst h4
  by_cases hA : pcA = .copying
  · subst hA
    exact Or.inr ⟨.copyReturns .copyA none, _, rfl⟩
  by_cases hB : pcB = .copying
  · subst hB
    exact Or.inr ⟨.copyReturns .copyB none, _, rfl⟩
  by_cases cA : inCleanup pcA = 1
  · cases pcA <;> simp [inCleanup] at cA
    all_goals exact Or.inr ⟨.run .copyA, _, rfl⟩
  by_cases cB : inCleanup pcB = 1
  · cases pcB <;> simp [inCleanup] at cB
    all_goals exact Or.inr ⟨.run .copyB, _, rfl⟩
  by_cases cW : inCleanup pcW = 1
  · cases pcW <;> simp [inCleanup] at cW
    all_goals exact Or.inr ⟨.run .waiter, _, rfl⟩
  have hrun : once ≠ .running := by
    intro hr
    subst hr
    have zA : inCleanup pcA = 0 := by cases pcA <;> simp [inCleanup] at cA ⊢
    have zB : inCleanup pcB = 0 := by cases pcB <;> simp [inCleanup] at cB ⊢
    have zW : inCleanup pcW = 0 := by cases pcW <;> simp [inCleanup] at cW ⊢
    simp [zA, zB, zW, isRunning] at h1
  by_cases fA : pcA = .finished
  · subst fA
    by_cases fB : pcB = .finished
    · subst fB
      cases pcW <;> simp [inCleanup] at h7 cW
      · exact Or.inr ⟨.run .waiter, _, rfl⟩
      · cases once
        · exact Or.inr ⟨.run .waiter, _, rfl⟩
        · exact absurd rfl hrun
        · exact Or.inr ⟨.run .waiter, _, rfl⟩
      · exact Or.inl ⟨rfl, rfl, rfl⟩
    · cases pcB <;> simp [inCleanup] at h6 hB cB fB
      · cases once
        · exact Or.inr ⟨.run .copyB, _, rfl⟩
        · exact absurd rfl hrun
        · exact Or.inr ⟨.run .copyB, _, rfl⟩
      · exact Or.inr ⟨.run .copyB, _, rfl⟩
  · cases pcA <;> simp [inCleanup] at h5 hA cA fA
    · cases once
      · exact Or.inr ⟨.run .copyA, _, rfl⟩
      · exact absurd rfl hrun
      · exact Or.inr ⟨.run .copyA, _, rfl⟩
    · exact Or.inr ⟨.run .copyA, _, rfl⟩

/-- Every step uses up part of the bound `stepsLeft`. -/
theorem step_stepsLeft (s s1 : PState) (a : Action)
    (hstep : proxyConnStep s a = some s1) : stepsLeft s1 < stepsLeft s := by
  obtain ⟨pcA, pcB, pcW, errA, errB, once, wg, c1, c2⟩ := s
  cases a with
  | copyReturns t err =>
    cases t
    · cases pcA <;> simp [proxyConnStep, PState.pc] at hstep
      subst hstep
      cases err <;> simp [stepsLeft, rank]
    · cases pcB <;> simp [proxyConnStep, PState.pc] at hstep
      subst hstep
      cases err <;> simp [stepsLeft, rank]
    · simp [proxyConnStep, PState.pc] at hstep
  | run t =>
    cases t
    · cases pcA <;> cases once <;>
        simp [proxyConnStep, PState.pc, PState.setPc] at hstep
      all_goals
        obtain ⟨hw, rfl⟩ := hstep
        simp [stepsLeft, rank, afterOnce]
    · cases pcB <;> cases once <;>
        simp [proxyConnStep, PState.pc, PState.setPc] at hstep
      all_goals
        obtain ⟨hw, rfl⟩ := hstep
        simp [stepsLeft, rank, afterOnce]
    · cases pcW <;> cases once <;>
        simp [proxyConnStep, PState.pc, PState.setPc] at hstep
      all_goals
        obtain ⟨hw, rfl⟩ := hstep
        simp [stepsLeft, rank, afterOnce]

/-- Every execution of `proxyConn` is finite: a schedule that runs from the
start has at most 18 steps. -/
theorem exec_length_le (sched : List Action) (s s1 : PState)
    (hexec : proxyConnExec sched s = some s1) : sched.length + stepsLeft s1 ≤ stepsLeft s := by
  induction sched generalizing s with
  | nil =>
    simp only [proxyConnExec, Option.some.injEq] at hexec
    simp [hexec]
  | cons a rest ih =>
    simp only [proxyConnExec] at hexec
    cases hs : proxyConnStep s a with
    | none => simp [hs] at hexec
    | some s2 =>
      rw [hs] at hexec
      have h1 := ih s2 hexec
      have h2 := step_stepsLeft s s2 a hs
      simp only [List.length_cons]
      omega

/-- C6: in every state of `proxyConn` reachable under any outcome of the two
copies and any interleaving, `Close` has been called at most once on `conn1`
and at most once on `conn2`, and once both copy goroutines and the waiting
goroutine have finished it has been called exactly once on each. -/
theorem proxyConn_close_exactly_once (s : PState) (h : Reachable s) :
    s.closed1 ≤ 1 ∧ s.closed2 ≤ 1 ∧
    (s.pcA = .finished → s.pcB = .finished → s.pcW = .finished →
      s.closed1 = 1 ∧ s.closed2 = 1) := by
  have inv := reachable_inv s h
  have r := inv.one_runner
  have c1 := inv.count1
  have c2 := inv.count2
  have o := once_indicators s.once
  have a1 := closedFirst_le s.pcA
  have b1 := closedFirst_le s.pcB
  have w1 := closedFirst_le s.pcW
  have a2 := closedSecond_le s.pcA
  have b2 := closedSecond_le s.pcB
  have w2 := closedSecond_le s.pcW
  refine ⟨by omega, by omega, ?_⟩
  intro hA hB hW
  have hd := inv.waiter_done hW
  rw [hd] at r c1 c2
  simp only [once_vals] at r c1 c2
  omega

theorem proxyConn_close_exactly_once_witness :
    (finalState none (some ⟨"reset"⟩)).closed1 ≤ 1 ∧
    (finalState none (some ⟨"reset"⟩)).closed2 ≤ 1 ∧
    ((finalState none (some ⟨"reset"⟩)).pcA = .finished →
      (finalState none (some ⟨"reset"⟩)).pcB = .finished →
      (finalState none (some ⟨"reset"⟩)).pcW = .finished →
      (finalState none (some ⟨"reset"⟩)).closed1 = 1 ∧
      (finalState none (some ⟨"reset"⟩)).closed2 = 1) :=
  proxyConn_close_exactly_once (finalState none (some ⟨"reset"⟩))
    ⟨fullSchedule none (some ⟨"reset"⟩), rfl⟩

/-- C7 as stated fails: when the copy of the first goroutine ends with
end-of-stream (`io.Copy` returns nil) and the goroutine finishes while the
other direction is still copying, no `Close` has been called. -/
theorem proxyConn_eof_closes_nothing :
    proxyConnExec [.copyReturns .copyA none, .run .copyA] proxyConnStart = some eofState ∧
    copyFinished eofState .copyA ∧
    eofState.closed1 = 0 ∧ eofState.closed2 = 0 ∧
    ¬ (1 ≤ eofState.closed1 ∧ 1 ≤ eofState.closed2) := by
  refine ⟨rfl, ⟨by decide, rfl⟩, rfl, rfl, by decide⟩

/-- C7, amended: in every reachable state of `proxyConn`,
(1) if a copy goroutine whose `io.Copy` returned an error has finished, both
connections have been closed, each exactly once, whether or not the other
direction has finished;
(2) a copy goroutine whose `io.Copy` returned nil is before `wg.Done()` or
has finished, so it never calls `once.Do(cleanup)`;
(3) a copy goroutine is at `once.Do` or running `cleanup` only if its
`io.Copy` returned an error;
(4) the waiting goroutine is past `wg.Wait()` only if both copy goroutines
have finished;
(5) if some `Close` has been called, then a copy returned an error, or both
copy goroutines have finished and it is the waiting goroutine that runs or
has run `cleanup`;
(6) if the waiting goroutine has finished, both connections have been closed
exactly once. -/
theorem proxyConn_error_closes_both (s : PState) (h : Reachable s) :
    (∀ t e, copyFinished s t → s.copyErr t = some (some e) →
      s.closed1 = 1 ∧ s.closed2 = 1) ∧
    (∀ t, t ≠ .waiter → s.copyErr t = some none →
      s.pc t = .atDone ∨ s.pc t = .finished) ∧
    (∀ t, t ≠ .waiter → (s.pc t = .atOnce ∨ inCleanup (s.pc t) = 1) →
      ∃ e, s.copyErr t = some (some e)) ∧
    (s.pcW ≠ .waiting → s.pcA = .finished ∧ s.pcB = .finished) ∧
    (1 ≤ s.closed1 ∨ 1 ≤ s.closed2 →
      (∃ e, s.errA = some (some e)) ∨ (∃ e, s.errB = some (some e)) ∨
        ((s.pcA = .finished ∧ s.pcB = .finished) ∧
          (inCleanup s.pcW = 1 ∨ s.pcW = .finished))) ∧
    (s.pcW = .finished → s.closed1 = 1 ∧ s.closed2 = 1) := by
  have inv := reachable_inv s h
  have cinv := reachable_cleanupInv s h
  have r := inv.one_runner
  have c1 := inv.count1
  have c2 := inv.count2
  have a1 := closedFirst_le s.pcA
  have b1 := closedFirst_le s.pcB
  have w1 := closedFirst_le s.pcW
  have a2 := closedSecond_le s.pcA
  have b2 := closedSecond_le s.pcB
  have w2 := closedSecond_le s.pcW
  have key : s.once = .done → s.closed1 = 1 ∧ s.closed2 = 1 := by
    intro hd
    rw [hd] at r c1 c2
    simp only [once_vals] at r c1 c2
    omega
  have region : ∀ p : Pc, (p = .atOnce ∨ inCleanup p = 1) →
      (p = .atOnce ∨ p = .close1 ∨ p = .close2 ∨ p = .onceExit) := by
    intro p hp
    cases p <;> simp [inCleanup] at hp ⊢
  have shape : ∀ p : Pc, p ≠ .waiting → p ≠ .copying →
      ¬ (p = .atOnce ∨ p = .close1 ∨ p = .close2 ∨ p = .onceExit) →
      p = .atDone ∨ p = .finished := by
    intro p h1 h2 h3
    cases p <;> simp at h1 h2 h3 ⊢
  refine ⟨?_, ?_, ?_, ?_, ?_, fun hW => key (inv.waiter_done hW)⟩
  · intro t e hfin herr
    obtain ⟨hne, hpc⟩ := hfin
    cases t with
    | copyA => exact key (inv.errA_past (Or.inr hpc) ⟨e, herr⟩)
    | copyB => exact key (inv.errB_past (Or.inr hpc) ⟨e, herr⟩)
    | waiter => exact absurd rfl hne
  · intro t hne herr
    cases t with
    | copyA =>
      refine shape s.pcA inv.shapeA ?_ ?_
      · intro hc
        have hn := cinv.copyingA hc
        simp [PState.copyErr, hn] at herr
      · intro hc
        obtain ⟨x, hx⟩ := cinv.onceA hc
        simp [PState.copyErr, hx] at herr
    | copyB =>
      refine shape s.pcB inv.shapeB ?_ ?_
      · intro hc
        have hn := cinv.copyingB hc
        simp [PState.copyErr, hn] at herr
      · intro hc
        obtain ⟨x, hx⟩ := cinv.onceB hc
        simp [PState.copyErr, hx] at herr
    | waiter => exact absurd rfl hne
  · intro t hne hp
    cases t with
    | copyA => exact cinv.onceA (region s.pcA hp)
    | copyB => exact cinv.onceB (region s.pcB hp)
    | waiter => exact absurd rfl hne
  · intro hW
    have hz := inv.waited hW
    have hc := inv.counter
    have pA := pending_nonneg s.pcA
    have pB := pending_nonneg s.pcB
    exact ⟨pending_finished s.pcA (by omega), pending_finished s.pcB (by omega)⟩
  · intro hcl
    have hfresh : s.once ≠ .fresh := by
      intro hf
      rw [hf] at r c1 c2
      simp only [once_vals] at r c1 c2
      omega
    rcases cinv.waiterRuns hfresh with hx | hx | hx
    · exact Or.inl hx
    · exact Or.inr (Or.inl hx)
    · rcases cinv.trigger hfresh with hy | hy | hy
      · exact Or.inl hy
      · exact Or.inr (Or.inl hy)
      · exact Or.inr (Or.inr ⟨hy, hx⟩)

theorem proxyConn_error_closes_both_witness :
    ((errorState ⟨"reset"⟩).closed1 = 1 ∧ (errorState ⟨"reset"⟩).closed2 = 1) ∧
    (eofState.pc .copyA = .atDone ∨ eofState.pc .copyA = .finished) ∧
    (∃ e, (errorClosingState ⟨"reset"⟩).copyErr .copyA = some (some e)) ∧
    (waiterClosingState.pcA = .finished ∧ waiterClosingState.pcB = .finished) ∧
    ((∃ e, waiterClosingState.errA = some (some e)) ∨
      (∃ e, waiterClosingState.errB = some (some e)) ∨
      ((waiterClosingState.pcA = .finished ∧ waiterClosingState.pcB = .finished) ∧
        (inCleanup waiterClosingState.pcW = 1 ∨ waiterClosingState.pcW = .finished))) ∧
    ((finalState none none).closed1 = 1 ∧ (finalState none none).closed2 = 1) :=
  ⟨(proxyConn_error_closes_both (errorState ⟨"reset"⟩)
      ⟨.copyReturns .copyA (some ⟨"reset"⟩) :: List.replicate 5 (.run .copyA), rfl⟩).1
      .copyA ⟨"reset"⟩ ⟨by decide, rfl⟩ rfl,
   (proxyConn_error_closes_both eofState
      ⟨[.copyReturns .copyA none, .run .copyA], rfl⟩).2.1 .copyA (by decide) rfl,
   (proxyConn_error_closes_both (errorClosingState ⟨"reset"⟩)
      ⟨.copyReturns .copyA (some ⟨"reset"⟩) :: List.replicate 2 (.run .copyA), rfl⟩).2.2.1
      .copyA (by decide) (Or.inr (by decide)),
   (proxyConn_error_closes_both waiterClosingState
      ⟨[.copyReturns .copyA none, .copyReturns .copyB none, .run .copyA, .run .copyB,
        .run .waiter, .run .waiter, .run .waiter], rfl⟩).2.2.2.1 (by decide),
   (proxyConn_error_closes_both waiterClosingState
      ⟨[.copyReturns .copyA none, .copyReturns .copyB none, .run .copyA, .run .copyB,
        .run .waiter, .run .waiter, .run .waiter], rfl⟩).2.2.2.2.1 (Or.inl (by decide)),
   (proxyConn_error_closes_both (finalState none none)
      ⟨fullSchedule none none, rfl⟩).2.2.2.2.2 rfl⟩

/-! ## Properties of `main` -/

/-- C10 fails on the code: started without `-mux-socket`, `main` prints the
diagnostic and dials or listens on no socket, but the exit status it passes
to `os.Exit` is 0. -/
theorem main_missing_option_exits_zero (version : String) (rest : Flags → List MainEvent) :
    main version rest ⟨false, "", "unix:///run/vc/proxy.sock", "", "warn"⟩
      = [.printf "Option -mux-socket and -listen-socket required\n", .exit 0] ∧
    exitStatus (main version rest ⟨false, "", "unix:///run/vc/proxy.sock", "", "warn"⟩)
      = some 0 ∧
    opensSocket (main version rest ⟨false, "", "unix:///run/vc/proxy.sock", "", "warn"⟩)
      = false := by
  simp [main, exitStatus, opensSocket]

end KataProxy
